import Mathlib


/-!
Verification of the Realtime Multimodal Analysis Pipeline core
(repository `GGroff15/tech-fase-4-python`).

The Python source is shallowly embedded: byte strings become `List Nat`
(one entry per byte or codepoint), stateful classes become Lean structures
with explicit state-passing functions, and `asyncio` queues become lists.
Each definition carries a comment naming the source function it embeds.
-/

set_option maxRecDepth 4000

/-! ## PcmChunker (`src/audio/audio_frame_adapter.py`) -/

/-- Embedding of the `chunk_bytes` computation in `PcmChunker.__init__`:
`int(sample_rate * frame_ms / 1000) * 2`.  On natural inputs Python's
float division followed by `int` truncation equals Nat floor division. -/
def chunkBytes (sampleRate frameMs : Nat) : Nat :=
  sampleRate * frameMs / 1000 * 2

/-- Embedding of the `while len(self.buffer) >= self.chunk_bytes` loop in
`PcmChunker.push`: repeatedly split off a prefix of length `cb`, returning
the extracted chunks and the retained residue.  The loop consumes at
least one byte per iteration when `0 < cb`, so `fuel := buf.length`
iterations always suffice; the Python loop does not terminate when
`chunk_bytes = 0`, and the fuel-0 base case is never reached for `0 < cb`. -/
def chunkLoopFuel : Nat → Nat → List Nat → List (List Nat) × List Nat
  | 0, _, buf => ([], buf)
  | fuel + 1, cb, buf =>
    if 0 < cb ∧ cb ≤ buf.length then
      let rest := chunkLoopFuel fuel cb (buf.drop cb)
      (buf.take cb :: rest.1, rest.2)
    else
      ([], buf)

/-- The chunk-extraction loop of `PcmChunker.push`, with sufficient fuel. -/
def chunkLoop (cb : Nat) (buf : List Nat) : List (List Nat) × List Nat :=
  chunkLoopFuel buf.length cb buf

/-- Embedding of one call `PcmChunker.push(pcm_bytes)`: the state is the
retained internal buffer together with the accumulated list of already
returned chunks (first component). -/
def pcmPush (cb : Nat) (st : List (List Nat) × List Nat) (pcm : List Nat) :
    List (List Nat) × List Nat :=
  let r := chunkLoop cb (st.2 ++ pcm)
  (st.1 ++ r.1, r.2)

/-- A whole sequence of `PcmChunker.push` calls starting from the empty
buffer of `PcmChunker.__init__`, collecting every returned chunk. -/
def pcmRun (cb : Nat) (pushes : List (List Nat)) : List (List Nat) × List Nat :=
  pushes.foldl (pcmPush cb) ([], [])

/-! ## VideoBuffer (`src/stream/frame_buffer.py`) -/

/-- State of a `VideoBuffer`: the `asyncio.Queue` contents (frames are
identified by `Nat` ids), the `dropped_count` attribute, and a ghost log
of the frames returned by `get` in order, used to state the claim. -/
structure VBState where
  queue : List Nat
  droppedCount : Nat
  observed : List Nat
deriving DecidableEq

/-- Embedding of `BaseBuffer._put_with_drop_oldest` as called from
`VideoBuffer.put`: when the queue is full (`qsize >= maxsize`) the oldest
item is removed with `get_nowait` and, since `VideoBuffer` has a
`dropped_count` attribute, `dropped_count` is incremented; then the new
frame is appended.  Returns the dropped frame, if any. -/
def putWithDropOldest (m : Nat) (s : VBState) (f : Nat) : Option Nat × VBState :=
  let p : Option Nat × VBState :=
    if m ≤ s.queue.length then
      match s.queue with
      | g :: rest => (some g, { s with queue := rest, droppedCount := s.droppedCount + 1 })
      | [] => (none, s)
    else (none, s)
  (p.1, { p.2 with queue := p.2.queue ++ [f] })

/-- Embedding of `VideoBuffer.put`: calls `_put_with_drop_oldest` and then,
if a frame was dropped, increments `dropped_count` once more (the source
increments it in both places). -/
def videoPut (m : Nat) (s : VBState) (f : Nat) : VBState :=
  let p := putWithDropOldest m s f
  match p.1 with
  | some _ => { p.2 with droppedCount := p.2.droppedCount + 1 }
  | none => p.2

/-- Embedding of `VideoBuffer.get`: dequeues the next frame and records it
in the ghost `observed` log.  A `get` on an empty buffer blocks until a
`put` arrives; such an interleaving is equivalent to one in which the
`get` is placed after that `put`, so the blocked case is modelled as a
no-op. -/
def videoGet (s : VBState) : VBState :=
  match s.queue with
  | f :: rest => { s with queue := rest, observed := s.observed ++ [f] }
  | [] => s

/-- One operation of an interleaving on a `VideoBuffer`. -/
inductive VBOp where
  | put (f : Nat)
  | get
deriving DecidableEq

def vbStep (m : Nat) (s : VBState) : VBOp → VBState
  | .put f => videoPut m s f
  | .get => videoGet s

/-- Run an interleaving against a fresh `VideoBuffer` (empty queue,
`dropped_count = 0`).  `FRAME_BUFFER_MAX_SIZE = 1` in
`src/config/constants.py`, so the claims instantiate `m := 1`. -/
def vbRun (m : Nat) (ops : List VBOp) : VBState :=
  ops.foldl (vbStep m) ⟨[], 0, []⟩

/-- The sequence of frames put, in order, of an interleaving. -/
def putsOf : List VBOp → List Nat
  | [] => []
  | .put f :: rest => f :: putsOf rest
  | .get :: rest => putsOf rest

/-! ## AudioBufferBroadcast (`src/stream/frame_buffer.py`) -/

/-- Embedding of `BaseAudioBuffer.put` (via `_put_with_drop_oldest`, where
`BaseAudioBuffer` has no `dropped_count` attribute): when the queue is
full the oldest frame is evicted and returned, and the new frame is
appended.  Frames are identified by `Nat` ids; the floating-point
`duration` bookkeeping of the source is not modelled (it does not affect
delivery).  Returns `(dropped frame, new queue)`. -/
def audioBufferPut (m : Nat) (q : List Nat) (f : Nat) : Option Nat × List Nat :=
  if m ≤ q.length then
    match q with
    | g :: rest => (some g, rest ++ [f])
    | [] => (none, [f])
  else (none, q ++ [f])

/-- Embedding of `AudioBufferBroadcast.put`: iterates over the downstream
buffers in order, putting the frame into each; as in the source, the loop
executes `return True` as soon as one downstream put reports a dropped
frame, leaving all remaining downstream buffers untouched. -/
def broadcastPut (m : Nat) (f : Nat) : List (List Nat) → List (List Nat)
  | [] => []
  | q :: rest =>
    let p := audioBufferPut m q f
    match p.1 with
    | some _ => p.2 :: rest
    | none => p.2 :: broadcastPut m f rest

/-! ## Event emission (`src/tracks/audio_observer.py`, `src/tracks/video_observer.py`,
`src/utils/emitter.py`) -/

/-- The two event sinks of the emission discipline. -/
inductive SinkKind where
  | dataChannel
  | http
deriving DecidableEq

/-- Deliveries actually executed by one call of `http_post_event`:
`http_post_event` is an `async def` (`src/utils/emitter.py`), so a call
builds a coroutine object and its body — the POST — runs only if that
coroutine is awaited or scheduled on an event loop.  `awaited = false`
models a bare call from synchronous code, whose coroutine is discarded:
nothing is delivered. -/
def httpPostEventDeliveries (awaited : Bool) : List SinkKind :=
  if awaited then [SinkKind.http] else []

/-- Sink deliveries executed by `AudioObserverTrack._handle_transcript`
for one transcription event: its only sink call is a bare
`http_post_event("transcript", ...)` from the Google STT worker thread —
never awaited or scheduled, so no HTTP request is performed — and no
DataChannel code exists on this path. -/
def handleTranscriptDeliveries : List SinkKind :=
  httpPostEventDeliveries false

/-- Sink deliveries executed by `AudioObserverTrack._detect_emotion` for
one emotion event: its only sink call is a bare
`http_post_event("emotion", ...)` in an executor thread — never awaited —
and no DataChannel code exists on this path. -/
def detectEmotionDeliveries : List SinkKind :=
  httpPostEventDeliveries false

/-- One iteration of the prediction loop in
`VideoObserverTrack._run_yolo`: a bare, unawaited
`http_post_event("object", ...)` call (no HTTP request), then — when a
channel is attached — `DataChannelWrapper(channel, self._loop)`, which
passes two arguments to the one-argument constructor of
`src/utils/emitter.py` and raises `TypeError` before any send;
`Except.error` models the raise. -/
def runYoloIteration (channelAttached : Bool) : Except Unit (List SinkKind) :=
  let httpDelivered := httpPostEventDeliveries false
  if channelAttached then Except.error () else Except.ok httpDelivered

/-- Sink deliveries executed by the whole prediction loop of `_run_yolo`
over `n` predictions: the try/except wrapping the loop catches the first
raise and ends dispatch for the remaining predictions. -/
def runYoloDeliveries (channelAttached : Bool) : Nat → List SinkKind
  | 0 => []
  | n + 1 =>
    match runYoloIteration channelAttached with
    | Except.ok ds => ds ++ runYoloDeliveries channelAttached n
    | Except.error _ => []

/-! ## Emotion label normalization (`src/audio/emotion_adapter.py`)

Strings are embedded as lists of codepoints (`List Nat`).  Python's
`str.lower` and `str.strip` are modelled on the ASCII fragment, which
covers every key of the rule tables. -/

/-- ASCII lowercasing of one codepoint, as `str.lower` acts on ASCII. -/
def pyLowerChar (c : Nat) : Nat :=
  if 65 ≤ c ∧ c ≤ 90 then c + 32 else c

/-- Python `str.strip` whitespace test on ASCII codepoints
(space, tab, LF, VT, FF, CR). -/
def pyIsSpace (c : Nat) : Bool :=
  decide (c = 32 ∨ c = 9 ∨ c = 10 ∨ c = 11 ∨ c = 12 ∨ c = 13)

/-- Embedding of `str.lower`. -/
def pyLower (s : List Nat) : List Nat :=
  s.map pyLowerChar

/-- Embedding of `str.strip`: drop whitespace from the front, then from
the back. -/
def pyStrip (s : List Nat) : List Nat :=
  List.rdropWhile pyIsSpace (s.dropWhile pyIsSpace)

/-- Codepoint list of a Lean string literal, for writing the rule tables. -/
def pyStr (s : String) : List Nat :=
  s.data.map Char.toNat

/-- The canonical label list `CANONICAL_LABELS` of `emotion_adapter.py`. -/
def CANONICAL_LABELS : List (List Nat) :=
  [pyStr "neutral", pyStr "happy", pyStr "sad", pyStr "angry",
   pyStr "fearful", pyStr "calm", pyStr "disgusted", pyStr "surprised"]

/-- The numeric id table `ID_MAP` of `emotion_adapter.py`. -/
def ID_MAP : List (List Nat × List Nat) :=
  [(pyStr "0", pyStr "neutral"), (pyStr "1", pyStr "calm"),
   (pyStr "2", pyStr "happy"), (pyStr "3", pyStr "sad"),
   (pyStr "4", pyStr "angry"), (pyStr "5", pyStr "fearful"),
   (pyStr "6", pyStr "disgusted"), (pyStr "7", pyStr "surprised")]

/-- The synonym table `SYNONYMS` of `emotion_adapter.py`. -/
def SYNONYMS : List (List Nat × List Nat) :=
  [(pyStr "disgust", pyStr "disgusted")]

/-- Python `key in dict` followed by `dict[key]`, for the embedded tables. -/
def assocLookup (m : List (List Nat × List Nat)) (k : List Nat) : Option (List Nat) :=
  (m.find? (fun p => p.1 == k)).map (fun p => p.2)

/-- Embedding of `canonical_label`: empty input is falsy and yields
`None`; otherwise the input is stripped and lowercased, the result looked
up first in `ID_MAP`, then among `CANONICAL_LABELS`, then in `SYNONYMS`;
anything else yields `None`.  (Python `None` input is outside the
embedded `str` domain.) -/
def canonical_label (raw_label : List Nat) : Option (List Nat) :=
  if raw_label = [] then none
  else
    let s := pyLower (pyStrip raw_label)
    if s = [] then none
    else
      match assocLookup ID_MAP s with
      | some v => some v
      | none =>
        if s ∈ CANONICAL_LABELS then some s
        else
          match assocLookup SYNONYMS s with
          | some v => some v
          | none => none

/-! ## GoogleStreamingSttSession (`src/audio/google_stt.py`) -/

/-- State of a `GoogleStreamingSttSession`: the preload chunks handed to
the constructor, the internal `audio_queue` (whose entries are either an
audio chunk or the `None` sentinel), and the `closed` flag. -/
structure SttSession where
  preload : List (List Nat)
  queue : List (Option (List Nat))
  closed : Bool
deriving DecidableEq

/-- Embedding of `GoogleStreamingSttSession.push_audio`: enqueue the chunk
only when the session is not closed. -/
def sttPushAudio (c : List Nat) (s : SttSession) : SttSession :=
  if s.closed then s else { s with queue := s.queue ++ [some c] }

/-- Embedding of `GoogleStreamingSttSession.close`: set the `closed` flag
and enqueue the `None` sentinel. -/
def sttClose (s : SttSession) : SttSession :=
  { s with closed := true, queue := s.queue ++ [none] }

/-- The audio yielded from the queue by
`GoogleStreamingSttSession._audio_generator`: chunks are yielded in order
until the `None` sentinel is reached, which ends the generator.  (The
generator also rechecks the `closed` flag before each blocking `get`; in
the sequential model the sentinel, enqueued together with setting the
flag, is what ends the drain.) -/
def audioGeneratorQueue : List (Option (List Nat)) → List (List Nat)
  | [] => []
  | none :: _ => []
  | some c :: rest => c :: audioGeneratorQueue rest

/-- The full request stream of `_audio_generator`: preload chunks first,
then the queued audio up to the sentinel. -/
def audioGenerator (s : SttSession) : List (List Nat) :=
  s.preload ++ audioGeneratorQueue s.queue

/-! ## StreamingSttOrchestrator (`src/audio/streaming_stt_orchestrator.py`) -/

/-- Embedding of `collections.deque(maxlen=cap).append` as used by
`AudioOverlapBuffer.push` (`src/audio/emotion_buffer.py`): append on the
right, discarding from the left when the deque is full. -/
def dequePush (cap : Nat) (q : List (List Nat)) (c : List Nat) : List (List Nat) :=
  if q.length + 1 ≤ cap then q ++ [c] else (q ++ [c]).drop (q.length + 1 - cap)

/-- State of a `StreamingSttOrchestrator`: the overlap deque, the current
session and its start timestamp, plus two ghost logs — the preload of
every session ever opened and every session object on which `close()` was
called (recorded at the moment of the close). -/
structure OrchState where
  overlap : List (List Nat)
  currentSession : Option SttSession
  sessionStartTs : Option Nat
  openedLog : List (List (List Nat))
  closedLog : List SttSession
deriving DecidableEq

/-- Embedding of `StreamingSttOrchestrator._start_new_session`: snapshot
the overlap buffer (`get_overlap`) as the preload of a fresh open session
and stamp the start time. -/
def startNewSession (t : Nat) (st : OrchState) : OrchState :=
  { st with
    currentSession := some (SttSession.mk st.overlap [] false),
    sessionStartTs := some t,
    openedLog := st.openedLog ++ [st.overlap] }

/-- Embedding of `StreamingSttOrchestrator.push_audio` at wall-clock time
`t`: push into the overlap deque; with no session and no speech, return;
with no session and speech, start one; then rotate (close the current
session and start a fresh one preloaded with the current overlap
snapshot) when the start timestamp is truthy (Python: `0.0` is falsy)
and the session age strictly exceeds `max_stream_duration`; finally
forward the chunk into the current session. -/
def orchPushAudio (cap maxDur t : Nat) (chunk : List Nat) (isSpeech : Bool)
    (st : OrchState) : OrchState :=
  let st1 := { st with overlap := dequePush cap st.overlap chunk }
  if st1.currentSession = none ∧ isSpeech = false then st1
  else
    let st2 := if st1.currentSession = none then startNewSession t st1 else st1
    let st3 :=
      match st2.sessionStartTs with
      | some s =>
        if s ≠ 0 ∧ maxDur < t - s then
          startNewSession t
            { st2 with closedLog := st2.closedLog ++ (st2.currentSession.map sttClose).toList }
        else st2
      | none => st2
    { st3 with currentSession := st3.currentSession.map (sttPushAudio chunk) }

/-- A fresh orchestrator, as built by `StreamingSttOrchestrator.__init__`:
empty overlap buffer, no session, no start timestamp. -/
def orchInit : OrchState :=
  OrchState.mk [] none none [] []

/-! ## SessionRegistry (`src/api/session.py`) -/

/-- A `Session` object: its correlation id, creation time, and the
`closed_at` timestamp set by `Session.close` (absent until `close` is
called; the data-channel teardown inside `close` is not modelled). -/
structure PySession where
  correlationId : String
  createdAt : Nat
  closedAt : Option Nat
deriving DecidableEq

/-- Embedding of `Session.close` at time `t`: records `closed_at`. -/
def sessionClose (t : Nat) (s : PySession) : PySession :=
  { s with closedAt := some t }

/-- Whether a session has ever been closed. -/
def sessionIsClosed (s : PySession) : Bool :=
  s.closedAt.isSome

/-- Python dict assignment `self._sessions[correlation_id] = session` on
an insertion-ordered association list: overwrite in place if the key
exists, else append. -/
def assocSet (reg : List (String × PySession)) (cid : String) (s : PySession) :
    List (String × PySession) :=
  match reg with
  | [] => [(cid, s)]
  | (k, v) :: rest =>
    if k = cid then (cid, s) :: rest else (k, v) :: assocSet rest cid s

/-- Embedding of `SessionRegistry.get`: `self._sessions.get(correlation_id)`. -/
def regGet (reg : List (String × PySession)) (cid : String) : Option PySession :=
  (reg.find? (fun p => p.1 == cid)).map (fun p => p.2)

/-- Embedding of `SessionRegistry.create` at time `t`: build a fresh
`Session` and store it under the id, overwriting any prior entry.  The
source performs nothing else — in particular it never calls `close` on
the prior entry.  Returns the new registry, the created session, and (as
a ghost observation) the prior entry that was overwritten, exactly as it
was stored. -/
def regCreate (reg : List (String × PySession)) (cid : String) (t : Nat) :
    List (String × PySession) × PySession × Option PySession :=
  let s := PySession.mk cid t none
  (assocSet reg cid s, s, regGet reg cid)

/-! ## Theorems for claim C2 -/

theorem chunkLoopFuel_spec (cb : Nat) (hcb : 0 < cb) :
    ∀ (fuel : Nat) (buf : List Nat), buf.length ≤ fuel →
      (∀ c ∈ (chunkLoopFuel fuel cb buf).1, c.length = cb) ∧
      (chunkLoopFuel fuel cb buf).2.length < cb ∧
      (chunkLoopFuel fuel cb buf).1.flatten ++ (chunkLoopFuel fuel cb buf).2 = buf := by
  intro fuel
  induction fuel with
  | zero =>
    intro buf hlen
    have : buf = [] := List.length_eq_zero.mp (Nat.le_zero.mp hlen)
    subst this
    simp [chunkLoopFuel]
    omega
  | succ n ih =>
    intro buf hlen
    rw [chunkLoopFuel]
    split
    · next h =>
      have hdrop : (buf.drop cb).length ≤ n := by
        simp only [List.length_drop]
        omega
      have IH := ih (buf.drop cb) hdrop
      refine ⟨?_, IH.2.1, ?_⟩
      · intro c hc
        rcases List.mem_cons.mp hc with h1 | h2
        · subst h1
          simp [List.length_take]
          omega
        · exact IH.1 c h2
      · simp only [List.flatten_cons, List.append_assoc, IH.2.2]
        exact List.take_append_drop cb buf
    · next h =>
      refine ⟨by simp, ?_, by simp⟩
      simp only
      omega

theorem pcmPush_spec (cb : Nat) (hcb : 0 < cb) (st : List (List Nat) × List Nat)
    (pcm : List Nat)
    (h1 : ∀ c ∈ st.1, c.length = cb) (h2 : st.2.length < cb) :
    (∀ c ∈ (pcmPush cb st pcm).1, c.length = cb) ∧
    (pcmPush cb st pcm).2.length < cb ∧
    (pcmPush cb st pcm).1.flatten ++ (pcmPush cb st pcm).2 =
      st.1.flatten ++ st.2 ++ pcm := by
  have H := chunkLoopFuel_spec cb hcb (st.2 ++ pcm).length (st.2 ++ pcm) le_rfl
  unfold pcmPush chunkLoop
  refine ⟨?_, H.2.1, ?_⟩
  · intro c hc
    rcases List.mem_append.mp hc with h | h
    · exact h1 c h
    · exact H.1 c h
  · simp only [List.flatten_append, List.append_assoc, H.2.2]

/-- C2: for every sequence of `PcmChunker.push` calls, every returned chunk
has length exactly `chunk_bytes`, the retained internal buffer stays
strictly smaller than `chunk_bytes` after each call, and the concatenation
of all returned chunks followed by the residue equals the concatenation of
all pushed bytes in order.  With the default configuration
(`sample_rate = 16000`, `frame_ms = 20`) the chunk size is 640 bytes. -/
theorem pcmChunker_push_spec :
    chunkBytes 16000 20 = 640 ∧
    ∀ cb : Nat, 0 < cb → ∀ pushes : List (List Nat),
      (∀ c ∈ (pcmRun cb pushes).1, c.length = cb) ∧
      (pcmRun cb pushes).2.length < cb ∧
      (pcmRun cb pushes).1.flatten ++ (pcmRun cb pushes).2 = pushes.flatten := by
  refine ⟨rfl, fun cb hcb pushes => ?_⟩
  suffices H : ∀ (ps : List (List Nat)) (st : List (List Nat) × List Nat),
      (∀ c ∈ st.1, c.length = cb) → st.2.length < cb →
      (∀ c ∈ (ps.foldl (pcmPush cb) st).1, c.length = cb) ∧
      (ps.foldl (pcmPush cb) st).2.length < cb ∧
      (ps.foldl (pcmPush cb) st).1.flatten ++ (ps.foldl (pcmPush cb) st).2 =
        st.1.flatten ++ st.2 ++ ps.flatten by
    have := H pushes ([], []) (by simp) (by simpa using hcb)
    simpa [pcmRun] using this
  intro ps
  induction ps with
  | nil => intro st h1 h2; simpa using ⟨h1, h2⟩
  | cons p rest ih =>
    intro st h1 h2
    have hp := pcmPush_spec cb hcb st p h1 h2
    have := ih (pcmPush cb st p) hp.1 hp.2.1
    refine ⟨this.1, this.2.1, ?_⟩
    simp only [List.foldl_cons, this.2.2, hp.2.2, List.flatten_cons, List.append_assoc]

/-- Witness for C2 at a concrete input: chunk size 2 with pushes
`[1,2,3]` then `[4,5]`. -/
theorem pcmChunker_push_spec_witness :
    0 < 2 ∧
    ((∀ c ∈ (pcmRun 2 [[1, 2, 3], [4, 5]]).1, c.length = 2) ∧
     (pcmRun 2 [[1, 2, 3], [4, 5]]).2.length < 2 ∧
     (pcmRun 2 [[1, 2, 3], [4, 5]]).1.flatten ++ (pcmRun 2 [[1, 2, 3], [4, 5]]).2 =
       [[1, 2, 3], [4, 5]].flatten) ∧
    pcmRun 2 [[1, 2, 3], [4, 5]] = ([[1, 2], [3, 4]], [5]) :=
  ⟨by decide, pcmChunker_push_spec.2 2 (by decide) [[1, 2, 3], [4, 5]], by decide⟩

/-! ## Theorems for claim C3 -/

/-- C3 counterexample: on the interleaving
`put 1; get; put 2; put 3; get` (N = 3 puts), the observed sequence is
`[1, 3]`, which is not a suffix of the put sequence `[1, 2, 3]`, and
`dropped_count` ends at 2 (the source increments it twice for the single
dropped frame), so `dropped_count + observed = 4 ≠ 3 = N`. -/
theorem videoBuffer_claim_counterexample :
    vbRun 1 [VBOp.put 1, VBOp.get, VBOp.put 2, VBOp.put 3, VBOp.get] =
      ⟨[], 2, [1, 3]⟩ ∧
    putsOf [VBOp.put 1, VBOp.get, VBOp.put 2, VBOp.put 3, VBOp.get] = [1, 2, 3] ∧
    ¬ ((vbRun 1 [VBOp.put 1, VBOp.get, VBOp.put 2, VBOp.put 3, VBOp.get]).observed <:+
         [1, 2, 3]) ∧
    ¬ ((vbRun 1 [VBOp.put 1, VBOp.get, VBOp.put 2, VBOp.put 3, VBOp.get]).droppedCount +
         (vbRun 1 [VBOp.put 1, VBOp.get, VBOp.put 2, VBOp.put 3, VBOp.get]).observed.length
         = 3) := by
  refine ⟨by decide, by decide, by decide, by decide⟩

theorem vbFoldl_aux (ops : List VBOp) :
    ∀ s : VBState, s.queue.length ≤ 1 →
      ((ops.foldl (vbStep 1) s).queue.length ≤ 1 ∧
       ((ops.foldl (vbStep 1) s).observed ++ (ops.foldl (vbStep 1) s).queue).Sublist
         (s.observed ++ s.queue ++ putsOf ops) ∧
       (ops.foldl (vbStep 1) s).droppedCount +
           2 * ((ops.foldl (vbStep 1) s).observed.length +
                (ops.foldl (vbStep 1) s).queue.length)
         = s.droppedCount + 2 * (s.observed.length + s.queue.length) +
             2 * (putsOf ops).length) := by
  induction ops with
  | nil =>
    intro s hq
    exact ⟨hq, by simp [putsOf], by simp [putsOf]⟩
  | cons op rest ih =>
    intro s hq
    rw [List.foldl_cons]
    cases op with
    | put f =>
      rcases hsq : s.queue with _ | ⟨g, tl⟩
      · rw [show vbStep 1 s (VBOp.put f) = VBState.mk [f] s.droppedCount s.observed from by
          simp [vbStep, videoPut, putWithDropOldest, hsq]]
        have IH := ih (VBState.mk [f] s.droppedCount s.observed) (by simp)
        refine ⟨IH.1, ?_, ?_⟩
        · refine IH.2.1.trans ?_
          simp [putsOf, List.append_assoc]
        · have h2 := IH.2.2
          simp only [putsOf] at h2 ⊢
          simp at h2 ⊢
          omega
      · have htl : tl = [] := by
          rw [hsq] at hq
          simpa using hq
        subst htl
        rw [show vbStep 1 s (VBOp.put f) = VBState.mk [f] (s.droppedCount + 2) s.observed from by
          simp [vbStep, videoPut, putWithDropOldest, hsq]]
        have IH := ih (VBState.mk [f] (s.droppedCount + 2) s.observed) (by simp)
        refine ⟨IH.1, ?_, ?_⟩
        · refine IH.2.1.trans ?_
          simp only [hsq, putsOf, List.append_assoc, List.singleton_append]
          exact List.Sublist.append_left (List.sublist_cons_self g (f :: putsOf rest)) s.observed
        · have h2 := IH.2.2
          simp only [hsq, putsOf] at h2 ⊢
          simp at h2 ⊢
          omega
    | get =>
      rcases hsq : s.queue with _ | ⟨g, tl⟩
      · rw [show vbStep 1 s VBOp.get = s from by simp [vbStep, videoGet, hsq]]
        have IH := ih s hq
        refine ⟨IH.1, ?_, ?_⟩
        · refine IH.2.1.trans ?_
          simp [putsOf, hsq]
        · have h2 := IH.2.2
          simp only [hsq, putsOf] at h2 ⊢
          simp at h2 ⊢
          omega
      · have htl : tl = [] := by
          rw [hsq] at hq
          simpa using hq
        subst htl
        rw [show vbStep 1 s VBOp.get = VBState.mk [] s.droppedCount (s.observed ++ [g]) from by
          simp [vbStep, videoGet, hsq]]
        have IH := ih (VBState.mk [] s.droppedCount (s.observed ++ [g])) (by simp)
        refine ⟨IH.1, ?_, ?_⟩
        · refine IH.2.1.trans ?_
          simp [putsOf, hsq, List.append_assoc]
        · have h2 := IH.2.2
          simp only [hsq, putsOf] at h2 ⊢
          simp at h2 ⊢
          omega

/-- C3 (amended): for any interleaving of puts and gets on a fresh
`VideoBuffer` (capacity `FRAME_BUFFER_MAX_SIZE = 1`), the observed get
sequence is a subsequence (not in general a suffix) of the put sequence,
the buffer holds at most one frame at any time, and — because the source
increments `dropped_count` twice per dropped frame, once inside
`_put_with_drop_oldest` and once in `VideoBuffer.put` —
`dropped_count + 2 * (observed + resident) = 2 * N`, i.e. the number of
dropped frames is `dropped_count / 2`. -/
theorem videoBuffer_drop_replace_amended (ops : List VBOp) :
    (vbRun 1 ops).queue.length ≤ 1 ∧
    ((vbRun 1 ops).observed).Sublist (putsOf ops) ∧
    (vbRun 1 ops).droppedCount +
        2 * ((vbRun 1 ops).observed.length + (vbRun 1 ops).queue.length)
      = 2 * (putsOf ops).length := by
  have H := vbFoldl_aux ops ⟨[], 0, []⟩ (by simp)
  refine ⟨H.1, ?_, ?_⟩
  · have h1 : ((vbRun 1 ops).observed ++ (vbRun 1 ops).queue).Sublist (putsOf ops) := by
      simpa [vbRun] using H.2.1
    exact (List.sublist_append_left _ _).trans h1
  · simpa [vbRun] using H.2.2

/-- The invariant of `videoBuffer_drop_replace_amended` evaluated on the
counterexample interleaving: one drop yields `dropped_count = 2`. -/
theorem videoBuffer_drop_replace_amended_example :
    (vbRun 1 [VBOp.put 1, VBOp.get, VBOp.put 2, VBOp.put 3, VBOp.get]).droppedCount = 2 := by
  decide

/-! ## Theorem for claim C1 -/

/-- C1 (code bug): with two downstream buffers of capacity 1, the first
holding frame 9 and the second empty, `AudioBufferBroadcast.put 5` drops
frame 9 from the first buffer and then returns immediately, so frame 5 is
never delivered to the second buffer — contradicting the claim that a
drop in one downstream does not prevent delivery to the rest.  The dead
`dropped_any` accumulator in the source indicates the early `return True`
is a slip. -/
theorem audioBroadcast_put_short_circuits :
    broadcastPut 1 5 [[9], []] = [[5], []] ∧
    ¬ (∀ q ∈ broadcastPut 1 5 [[9], []], 5 ∈ q) := by
  refine ⟨by decide, by decide⟩

/-! ## Theorem for claim C4 -/

/-- C4 (code bug): contrary to the claim — and to the emission discipline
the call sites plainly intend — no event is ever delivered to either
sink.  All three handlers invoke the `async def` `http_post_event`
without awaiting or scheduling it, so no HTTP request is ever attempted;
transcription and emotion events have no DataChannel path at all; and
for object detections with an attached channel the
`DataChannelWrapper(channel, self._loop)` call raises `TypeError` before
any send and aborts dispatch for the rest of the frame's detections.  In
particular, for a transcription event neither sink is attempted even
once. -/
theorem emitter_dual_dispatch_never_delivers :
    handleTranscriptDeliveries = [] ∧
    detectEmotionDeliveries = [] ∧
    (∀ (channelAttached : Bool) (n : Nat), runYoloDeliveries channelAttached n = []) ∧
    ¬ (List.count SinkKind.http handleTranscriptDeliveries = 1 ∧
       List.count SinkKind.dataChannel handleTranscriptDeliveries = 1) := by
  refine ⟨rfl, rfl, ?_, by decide⟩
  intro channelAttached n
  induction n with
  | zero => rfl
  | succ k ih =>
    cases channelAttached with
    | true => rfl
    | false =>
      simpa [runYoloDeliveries, runYoloIteration, httpPostEventDeliveries] using ih

/-! ## Theorems for claims C8 and C10 -/

theorem pyLowerChar_idem (c : Nat) : pyLowerChar (pyLowerChar c) = pyLowerChar c := by
  simp only [pyLowerChar]
  split_ifs <;> omega

theorem pyIsSpace_pyLowerChar (c : Nat) : pyIsSpace (pyLowerChar c) = pyIsSpace c := by
  simp only [pyIsSpace, pyLowerChar]
  rw [decide_eq_decide]
  split_ifs with h <;> omega

theorem pyLower_idem (s : List Nat) : pyLower (pyLower s) = pyLower s := by
  simp only [pyLower, List.map_map]
  induction s with
  | nil => rfl
  | cons a t ih => simp [Function.comp, pyLowerChar_idem, ih]

theorem pyIsSpace_comp : (pyIsSpace ∘ pyLowerChar) = pyIsSpace :=
  funext pyIsSpace_pyLowerChar

theorem dropWhile_pyLower (s : List Nat) :
    (pyLower s).dropWhile pyIsSpace = pyLower (s.dropWhile pyIsSpace) := by
  simp only [pyLower, List.dropWhile_map, pyIsSpace_comp]

theorem rdropWhile_pyLower (s : List Nat) :
    List.rdropWhile pyIsSpace (pyLower s) = pyLower (List.rdropWhile pyIsSpace s) := by
  simp only [List.rdropWhile, pyLower, ← List.map_reverse, List.dropWhile_map,
    pyIsSpace_comp]

theorem pyStrip_pyLower (s : List Nat) : pyStrip (pyLower s) = pyLower (pyStrip s) := by
  simp only [pyStrip, dropWhile_pyLower, rdropWhile_pyLower]

theorem dropWhile_of_prefix_self {p : Nat → Bool} {X l : List Nat} (hX : X <+: l)
    (hl : l.dropWhile p = l) : X.dropWhile p = X := by
  rcases hX with ⟨r, hr⟩
  cases X with
  | nil => rfl
  | cons x X =>
    cases l with
    | nil => simp at hr
    | cons a t =>
      have hx : x = a := by
        have := hr
        simp only [List.cons_append] at this
        exact (List.cons.injEq _ _ _ _ ▸ this).1
      subst hx
      have hpa : p x = false := by
        by_contra h
        have hpx : p x = true := by
          cases hpx : p x
          · exact absurd hpx h
          · rfl
        rw [List.dropWhile_cons_of_pos hpx] at hl
        have h1 : (t.dropWhile p).length ≤ t.length := (List.dropWhile_sublist p).length_le
        have h2 : (t.dropWhile p).length = t.length + 1 := by rw [hl]; simp
        omega
      rw [List.dropWhile_cons_of_neg (by simp [hpa])]

theorem pyStrip_idem (s : List Nat) : pyStrip (pyStrip s) = pyStrip s := by
  simp only [pyStrip]
  have hA : (s.dropWhile pyIsSpace).dropWhile pyIsSpace = s.dropWhile pyIsSpace :=
    List.dropWhile_idempotent pyIsSpace s
  have hpre : List.rdropWhile pyIsSpace (s.dropWhile pyIsSpace) <+: s.dropWhile pyIsSpace :=
    List.rdropWhile_prefix _ _
  rw [dropWhile_of_prefix_self hpre hA, List.rdropWhile_idempotent]

theorem pyNorm_idem (s : List Nat) :
    pyLower (pyStrip (pyLower (pyStrip s))) = pyLower (pyStrip s) := by
  rw [pyStrip_pyLower, pyLower_idem, pyStrip_idem]

theorem assocLookup_eq_none {m : List (List Nat × List Nat)} {k : List Nat}
    (h : ∀ p ∈ m, p.1 ≠ k) : assocLookup m k = none := by
  induction m with
  | nil => rfl
  | cons q rest ih =>
    have hq : (q.1 == k) = false := by
      simpa using h q (List.mem_cons_self q rest)
    simp only [assocLookup, List.find?_cons, hq]
    exact ih fun p hp => h p (List.mem_cons_of_mem q hp)

/-- C8: each canonical label normalizes to itself; each numeric id of the
id map and each synonym normalizes to its canonical label; and any input
whose stripped, lowercased form lies outside the canonical set, the id
map and the synonym table normalizes to `none`. -/
theorem canonical_label_round_trip :
    (∀ l ∈ CANONICAL_LABELS, canonical_label l = some l) ∧
    (∀ p ∈ ID_MAP, canonical_label p.1 = some p.2) ∧
    (∀ p ∈ SYNONYMS, canonical_label p.1 = some p.2) ∧
    (∀ s : List Nat, pyLower (pyStrip s) ∉ CANONICAL_LABELS →
      (∀ p ∈ ID_MAP, p.1 ≠ pyLower (pyStrip s)) →
      (∀ p ∈ SYNONYMS, p.1 ≠ pyLower (pyStrip s)) →
      canonical_label s = none) := by
  refine ⟨by decide, by decide, by decide, ?_⟩
  intro s h1 h2 h3
  by_cases hs : s = []
  · simp [canonical_label, hs]
  · by_cases ht : pyLower (pyStrip s) = []
    · simp [canonical_label, hs, ht]
    · simp only [canonical_label, if_neg hs, if_neg ht,
        assocLookup_eq_none h2, assocLookup_eq_none h3, if_neg h1]

/-- Witness for C8: the synonym `disgust` and the unknown label `xyz`. -/
theorem canonical_label_round_trip_witness :
    canonical_label (pyStr "disgust") = some (pyStr "disgusted") ∧
    canonical_label (pyStr "xyz") = none :=
  ⟨canonical_label_round_trip.2.2.1 (pyStr "disgust", pyStr "disgusted") (by decide),
   canonical_label_round_trip.2.2.2 (pyStr "xyz") (by decide) (by decide) (by decide)⟩

/-- C10: `canonical_label` is invariant under pre-stripping and
pre-lowercasing its input, and returns `none` on empty or
whitespace-only inputs. -/
theorem canonical_label_case_whitespace_invariant :
    (∀ s : List Nat, canonical_label s = canonical_label (pyLower (pyStrip s))) ∧
    (∀ s : List Nat, (∀ c ∈ s, pyIsSpace c = true) → canonical_label s = none) := by
  constructor
  · intro s
    by_cases hs : s = []
    · subst hs
      rfl
    · by_cases ht : pyLower (pyStrip s) = []
      · simp [canonical_label, hs, ht]
      · have hnorm := pyNorm_idem s
        simp only [canonical_label, if_neg hs, if_neg ht, hnorm]
  · intro s hsp
    by_cases hs : s = []
    · simp [canonical_label, hs]
    · have hdrop : s.dropWhile pyIsSpace = [] := List.dropWhile_eq_nil_iff.mpr hsp
      have ht : pyLower (pyStrip s) = [] := by
        simp [pyStrip, hdrop, List.rdropWhile_nil, pyLower]
      simp [canonical_label, hs, ht]

/-- Witness for C10: a label with surrounding case and whitespace, and a
whitespace-only input. -/
theorem canonical_label_case_whitespace_invariant_witness :
    (canonical_label (pyStr " HAPPY ") =
       canonical_label (pyLower (pyStrip (pyStr " HAPPY ")))) ∧
    canonical_label (pyStr "  ") = none :=
  ⟨canonical_label_case_whitespace_invariant.1 (pyStr " HAPPY "),
   canonical_label_case_whitespace_invariant.2 (pyStr "  ") (by decide)⟩

/-! ## Theorems for claim C9 -/

theorem audioGeneratorQueue_sentinel {q : List (Option (List Nat))}
    (h : ∀ x ∈ q, x ≠ none) :
    audioGeneratorQueue (q ++ [none]) = q.filterMap id := by
  induction q with
  | nil => rfl
  | cons x rest ih =>
    cases x with
    | none => exact absurd rfl (h none (List.mem_cons_self _ _))
    | some c =>
      rw [List.cons_append,
        show audioGeneratorQueue (some c :: (rest ++ [none])) =
          c :: audioGeneratorQueue (rest ++ [none]) from rfl,
        ih fun y hy => h y (List.mem_cons_of_mem _ hy)]
      simp [List.filterMap_cons]

/-- C9: once `close()` has been called, every subsequent `push_audio`
leaves the session (in particular its audio queue) unchanged, so nothing
is enqueued after the sentinel, and the request generator yields exactly
the preload plus the audio enqueued before the close — no audio past the
sentinel, whatever is pushed afterwards. -/
theorem stt_close_discards_later_audio :
    (∀ (s : SttSession) (cs : List (List Nat)), s.closed = true →
       cs.foldl (fun t c => sttPushAudio c t) s = s) ∧
    (∀ (s : SttSession) (cs : List (List Nat)), (∀ x ∈ s.queue, x ≠ none) →
       audioGenerator (cs.foldl (fun t c => sttPushAudio c t) (sttClose s)) =
         s.preload ++ s.queue.filterMap id) := by
  have hfix : ∀ (cs : List (List Nat)) (s : SttSession), s.closed = true →
      cs.foldl (fun t c => sttPushAudio c t) s = s := by
    intro cs
    induction cs with
    | nil => intro s _; rfl
    | cons c rest ih =>
      intro s hs
      rw [List.foldl_cons, show sttPushAudio c s = s from by simp [sttPushAudio, hs]]
      exact ih s hs
  refine ⟨fun s cs hs => hfix cs s hs, fun s cs hq => ?_⟩
  rw [hfix cs (sttClose s) rfl]
  simp only [audioGenerator, sttClose]
  rw [audioGeneratorQueue_sentinel hq]

/-- Witness for C9: a closed session with one pre-close chunk ignores two
later pushes and its generator yields only the preload and that chunk. -/
theorem stt_close_discards_later_audio_witness :
    ([[3], [4]].foldl (fun t c => sttPushAudio c t)
        (SttSession.mk [[1]] [some [2], none] true) =
      SttSession.mk [[1]] [some [2], none] true) ∧
    audioGenerator ([[3], [4]].foldl (fun t c => sttPushAudio c t)
        (sttClose (SttSession.mk [[1]] [some [2]] false))) =
      [[1]] ++ [some [2]].filterMap id :=
  ⟨stt_close_discards_later_audio.1 (SttSession.mk [[1]] [some [2], none] true)
      [[3], [4]] rfl,
   stt_close_discards_later_audio.2 (SttSession.mk [[1]] [some [2]] false)
      [[3], [4]] (by decide)⟩

/-! ## Theorems for claim C5 -/

/-- C5: as long as every pushed chunk has `is_speech = false`, no
recognizer session is opened — the orchestrator state changes only in the
overlap buffer: the current session stays absent and the opened-session
log does not grow. -/
theorem vad_gate_no_session_before_speech
    (cap maxDur : Nat) (trace : List (Nat × List Nat × Bool)) (st0 : OrchState)
    (hcur : st0.currentSession = none)
    (hns : ∀ e ∈ trace, e.2.2 = false) :
    trace.foldl (fun st e => orchPushAudio cap maxDur e.1 e.2.1 e.2.2 st) st0 =
      { st0 with overlap := trace.foldl (fun q e => dequePush cap q e.2.1) st0.overlap } ∧
    (trace.foldl (fun st e => orchPushAudio cap maxDur e.1 e.2.1 e.2.2 st) st0).currentSession
      = none ∧
    (trace.foldl (fun st e => orchPushAudio cap maxDur e.1 e.2.1 e.2.2 st) st0).openedLog
      = st0.openedLog := by
  suffices H : trace.foldl (fun st e => orchPushAudio cap maxDur e.1 e.2.1 e.2.2 st) st0 =
      { st0 with overlap := trace.foldl (fun q e => dequePush cap q e.2.1) st0.overlap } by
    exact ⟨H, by rw [H]; exact hcur, by rw [H]⟩
  induction trace generalizing st0 with
  | nil => simp
  | cons e rest ih =>
    have he : e.2.2 = false := hns e (List.mem_cons_self _ _)
    have hstep : orchPushAudio cap maxDur e.1 e.2.1 e.2.2 st0 =
        { st0 with overlap := dequePush cap st0.overlap e.2.1 } := by
      simp [orchPushAudio, hcur, he]
    rw [List.foldl_cons, List.foldl_cons, hstep,
      ih { st0 with overlap := dequePush cap st0.overlap e.2.1 } hcur
        (fun x hx => hns x (List.mem_cons_of_mem _ hx))]

/-- Witness for C5: two non-speech chunks on a fresh orchestrator leave it
with only the overlap buffer filled. -/
theorem vad_gate_no_session_before_speech_witness :
    ([((1 : Nat), ([5] : List Nat), false), (2, [6], false)].foldl
        (fun st e => orchPushAudio 50 240 e.1 e.2.1 e.2.2 st) orchInit =
      { orchInit with
        overlap := [((1 : Nat), ([5] : List Nat), false), (2, [6], false)].foldl
          (fun q e => dequePush 50 q e.2.1) orchInit.overlap }) ∧
    ([((1 : Nat), ([5] : List Nat), false), (2, [6], false)].foldl
        (fun st e => orchPushAudio 50 240 e.1 e.2.1 e.2.2 st) orchInit).currentSession
      = none ∧
    ([((1 : Nat), ([5] : List Nat), false), (2, [6], false)].foldl
        (fun st e => orchPushAudio 50 240 e.1 e.2.1 e.2.2 st) orchInit).openedLog
      = orchInit.openedLog :=
  vad_gate_no_session_before_speech 50 240
    [((1 : Nat), ([5] : List Nat), false), (2, [6], false)] orchInit rfl (by decide)

/-! ## Theorems for claim C6 -/

/-- C6 counterexample: with `max_stream_duration = 2`, a session started
at time 1 and a chunk pushed at time 3, the session age `3 - 1 = 2` is
at least (equal to) the maximum, yet the source — whose guard is the
strict `time.time() - self.session_start_ts > self.max_stream_duration` —
performs no rotation: no session is closed, none is opened, and the chunk
goes into the old session. -/
theorem stream_rotation_at_boundary_counterexample :
    (2 : Nat) ≤ 3 - 1 ∧
    (orchPushAudio 50 2 3 [7] true
        (OrchState.mk [] (some (SttSession.mk [] [] false)) (some 1) [] [])).closedLog
      = [] ∧
    (orchPushAudio 50 2 3 [7] true
        (OrchState.mk [] (some (SttSession.mk [] [] false)) (some 1) [] [])).openedLog
      = [] ∧
    (orchPushAudio 50 2 3 [7] true
        (OrchState.mk [] (some (SttSession.mk [] [] false)) (some 1) [] [])).currentSession
      = some (SttSession.mk [] [some [7]] false) := by
  refine ⟨by decide, by decide, by decide, by decide⟩

/-- C6 (amended): whenever a chunk is pushed at time `t` while a session
is active with a truthy (nonzero) start timestamp `s` and the session age
strictly exceeds `max_stream_duration`, the current session is closed
(its terminating sentinel is enqueued), a new session is opened preloaded
with the overlap snapshot taken at rotation time (which already contains
the current chunk, pushed at the top of `push_audio`), and the current
chunk is forwarded into the new session. -/
theorem stream_rotation_amended (cap maxDur t s : Nat) (chunk : List Nat)
    (isSpeech : Bool) (sess : SttSession) (st : OrchState)
    (hcur : st.currentSession = some sess)
    (hts : st.sessionStartTs = some s)
    (hs : s ≠ 0) (hage : maxDur < t - s) :
    orchPushAudio cap maxDur t chunk isSpeech st =
      { st with
        overlap := dequePush cap st.overlap chunk,
        closedLog := st.closedLog ++ [sttClose sess],
        currentSession :=
          some (SttSession.mk (dequePush cap st.overlap chunk) [some chunk] false),
        sessionStartTs := some t,
        openedLog := st.openedLog ++ [dequePush cap st.overlap chunk] } := by
  simp only [orchPushAudio, startNewSession, hcur, hts]
  simp [sttPushAudio, hs, hage]

/-- Witness for C6 at a concrete rotation: maximum duration 2, session
started at time 1, chunk `[7]` pushed at time 10. -/
theorem stream_rotation_amended_witness :
    orchPushAudio 50 2 10 [7] true
        (OrchState.mk [] (some (SttSession.mk [] [some [4]] false)) (some 1) [] []) =
      { OrchState.mk [] (some (SttSession.mk [] [some [4]] false)) (some 1) [] [] with
        overlap := dequePush 50 [] [7],
        closedLog := [] ++ [sttClose (SttSession.mk [] [some [4]] false)],
        currentSession := some (SttSession.mk (dequePush 50 [] [7]) [some [7]] false),
        sessionStartTs := some 10,
        openedLog := [] ++ [dequePush 50 [] [7]] } :=
  stream_rotation_amended 50 2 10 1 [7] true (SttSession.mk [] [some [4]] false)
    (OrchState.mk [] (some (SttSession.mk [] [some [4]] false)) (some 1) [] [])
    rfl rfl (by decide) (by decide)

/-! ## Theorems for claim C7 -/

theorem regGet_assocSet_self (reg : List (String × PySession)) (cid : String)
    (s : PySession) : regGet (assocSet reg cid s) cid = some s := by
  induction reg with
  | nil => simp [assocSet, regGet, List.find?]
  | cons kv rest ih =>
    by_cases h : kv.1 = cid
    · simp [assocSet, h, regGet, List.find?]
    · simp only [assocSet]
      rw [if_neg (by exact fun hh => h (by cases kv; exact hh))]
      simpa [regGet, List.find?_cons, h] using ih

theorem regGet_assocSet_other (reg : List (String × PySession)) (cid other : String)
    (s : PySession) (hne : other ≠ cid) :
    regGet (assocSet reg cid s) other = regGet reg other := by
  have hco : (cid == other) = false := by
    simpa using Ne.symm hne
  induction reg with
  | nil => simp [assocSet, regGet, List.find?, hco]
  | cons kv rest ih =>
    cases kv with
    | mk k v =>
      by_cases h : k = cid
      · subst h
        simp [assocSet, regGet, List.find?_cons, hco]
      · simp only [assocSet, if_neg h]
        cases hko : (k == other) with
        | true => simp [regGet, List.find?_cons, hko]
        | false => simpa [regGet, List.find?_cons, hko] using ih

/-- C7 counterexample: creating `"a"` twice leaves the prior session for
`"a"` unclosed (its `closed_at` is still absent) — `SessionRegistry.create`
replaces the entry but never closes it, contradicting the claim.  The
part of the claim that does hold — `get` returns the new session — is
included for contrast. -/
theorem sessionRegistry_create_counterexample :
    (regCreate (regCreate [] "a" 0).1 "a" 5).2.2 = some (PySession.mk "a" 0 none) ∧
    (∀ prior, (regCreate (regCreate [] "a" 0).1 "a" 5).2.2 = some prior →
       sessionIsClosed prior = false) ∧
    regGet (regCreate (regCreate [] "a" 0).1 "a" 5).1 "a" = some (PySession.mk "a" 5 none) := by
  refine ⟨by decide, ?_, by decide⟩
  intro prior hp
  have : prior = PySession.mk "a" 0 none := by
    have h0 : (regCreate (regCreate [] "a" 0).1 "a" 5).2.2 = some (PySession.mk "a" 0 none) := by
      decide
    rw [h0] at hp
    exact (Option.some.injEq _ _ ▸ hp.symm)
  rw [this]
  decide

/-- C7 (amended): `create(correlation_id)` stores the new session under
the id — afterwards `get(correlation_id)` returns the new session and
entries under other ids are untouched — and the prior session under a
duplicate id is dropped from the registry exactly as stored, without
being closed. -/
theorem sessionRegistry_create_amended (reg : List (String × PySession))
    (cid : String) (t : Nat) :
    regGet (regCreate reg cid t).1 cid = some (PySession.mk cid t none) ∧
    (∀ other : String, other ≠ cid →
       regGet (regCreate reg cid t).1 other = regGet reg other) ∧
    (regCreate reg cid t).2.2 = regGet reg cid := by
  refine ⟨regGet_assocSet_self reg cid _, ?_, rfl⟩
  intro other hne
  exact regGet_assocSet_other reg cid other _ hne

/-- Witness for C7 at a concrete registry: create `"a"`, then `"b"`. -/
theorem sessionRegistry_create_amended_witness :
    regGet (regCreate [("a", PySession.mk "a" 0 none)] "b" 5).1 "b" =
      some (PySession.mk "b" 5 none) ∧
    regGet (regCreate [("a", PySession.mk "a" 0 none)] "b" 5).1 "a" =
      regGet [("a", PySession.mk "a" 0 none)] "a" ∧
    (regCreate [("a", PySession.mk "a" 0 none)] "b" 5).2.2 =
      regGet [("a", PySession.mk "a" 0 none)] "b" :=
  ⟨(sessionRegistry_create_amended [("a", PySession.mk "a" 0 none)] "b" 5).1,
   (sessionRegistry_create_amended [("a", PySession.mk "a" 0 none)] "b" 5).2.1 "a"
     (by decide),
   (sessionRegistry_create_amended [("a", PySession.mk "a" 0 none)] "b" 5).2.2⟩
